import Mathlib

/-!
Verification of `aiida_lammps/common/generate_structure.py`.

The file embeds the two components of the module:

* `transform_cell` — the cell normalizer.  The Python function calls
  `numpy.linalg.qr(cell.T, mode="complete")`, an external library routine;
  the factorization itself is therefore modelled by its contract: the
  embedding takes the factors `Q` (orthogonal) and `R` (upper triangular,
  with `cellᵀ = Q * R`) as inputs and embeds the post-processing that the
  Python function performs on them (sign correction of the diagonal and
  composition of the transform).

* `generate_lammps_structure` — the structure serializer, embedded over `ℚ`
  (idealizing IEEE floats by exact arithmetic).  Python dictionaries are
  modelled as association lists with insertion order, and the two
  exceptions the code can raise (`ValueError` for a bad `atom_style`,
  `KeyError` for a site whose kind is missing from the kind list) are
  modelled by `Except` with an explicit error type.

All matrices are `Matrix (Fin 3) (Fin 3) _`; real-number claims about the
normalizer are stated over an arbitrary `LinearOrderedField`, which covers
`ℝ` and keeps every definition executable over `ℚ`.
-/

open Matrix

/-- A matrix is upper triangular when every entry strictly below the main
diagonal vanishes.  This is the shape contract of the `R` factor returned by
`numpy.linalg.qr`. -/
def upperTriangular {α : Type} [Zero α] (R : Matrix (Fin 3) (Fin 3) α) : Prop :=
  ∀ i j : Fin 3, j < i → R i j = 0

instance {α : Type} [Zero α] [DecidableEq α] (R : Matrix (Fin 3) (Fin 3) α) :
    Decidable (upperTriangular R) := by
  unfold upperTriangular; infer_instance

/-- Embedding of the loop
`inversion = np.eye(3); for entry in range(3): if new_cell[entry, entry] < 0.0: inversion[entry, entry] = -1.0`:
a diagonal matrix with `-1` exactly at the indices where the argument's
diagonal entry is negative, and `1` elsewhere on the diagonal. -/
def inversionMatrix {α : Type} [LinearOrderedField α] (new_cell : Matrix (Fin 3) (Fin 3) α) :
    Matrix (Fin 3) (Fin 3) α :=
  Matrix.diagonal fun i => if new_cell i i < 0 then (-1 : α) else 1

/-- Embedding of `transform_cell` (generate_structure.py, lines 16-41).  The
QR factorization `transform, upper_tri = np.linalg.qr(cell.T, mode="complete")`
is supplied through the arguments `Q` and `R`; the function mirrors the
remaining statements:

* `new_cell = np.transpose(upper_tri)`
* the `inversion` loop (see `inversionMatrix`)
* `new_cell = np.dot(inversion, new_cell.T).T`
* `transform = np.dot(transform, inversion.T).T`

and returns `(new_cell, transform)`. -/
def transform_cell {α : Type} [LinearOrderedField α] (Q R : Matrix (Fin 3) (Fin 3) α) :
    Matrix (Fin 3) (Fin 3) α × Matrix (Fin 3) (Fin 3) α :=
  let new_cell := Rᵀ
  let inversion := inversionMatrix new_cell
  ((inversion * new_cellᵀ)ᵀ, (Q * inversionᵀ)ᵀ)

section NormalizerLemmas

variable {α : Type} [LinearOrderedField α]

theorem inversionMatrix_transpose (M : Matrix (Fin 3) (Fin 3) α) :
    (inversionMatrix M)ᵀ = inversionMatrix M := by
  simp [inversionMatrix, Matrix.diagonal_transpose]

theorem inversionMatrix_mul_self (M : Matrix (Fin 3) (Fin 3) α) :
    inversionMatrix M * inversionMatrix M = 1 := by
  unfold inversionMatrix
  rw [Matrix.diagonal_mul_diagonal]
  have h : ∀ i : Fin 3,
      (if M i i < 0 then (-1 : α) else 1) * (if M i i < 0 then (-1 : α) else 1) = 1 := by
    intro i
    by_cases h : M i i < 0 <;> simp [h]
  simp only [h]
  exact Matrix.diagonal_one

theorem transform_cell_fst (Q R : Matrix (Fin 3) (Fin 3) α) :
    (transform_cell Q R).1 = (inversionMatrix Rᵀ * R)ᵀ := by
  simp [transform_cell]

theorem transform_cell_snd (Q R : Matrix (Fin 3) (Fin 3) α) :
    (transform_cell Q R).2 = inversionMatrix Rᵀ * Qᵀ := by
  simp [transform_cell, Matrix.transpose_mul, inversionMatrix_transpose]

theorem transform_cell_one (Q : Matrix (Fin 3) (Fin 3) α) :
    transform_cell Q (1 : Matrix (Fin 3) (Fin 3) α) = (1, Qᵀ) := by
  have h1 : inversionMatrix (1 : Matrix (Fin 3) (Fin 3) α) = 1 := by
    unfold inversionMatrix
    have h : (fun i : Fin 3 =>
        if (1 : Matrix (Fin 3) (Fin 3) α) i i < 0 then (-1 : α) else 1) = fun _ => 1 := by
      funext i
      rw [Matrix.one_apply_eq, if_neg (by norm_num)]
    rw [h, Matrix.diagonal_one]
  simp [transform_cell, Matrix.transpose_one, h1, Matrix.one_mul, Matrix.mul_one]

end NormalizerLemmas

/-- Orthogonal factor of a concrete QR factorization used as a counterexample
input: a rotation by the Pythagorean angle with cosine `3/5`, acting in the
xy-plane.  Its entries are rational, so every QR hypothesis can be verified
by explicit computation. -/
noncomputable def Qrot : Matrix (Fin 3) (Fin 3) ℝ :=
  Matrix.of ![![3/5, -4/5, 0], ![4/5, 3/5, 0], ![0, 0, 1]]

/-- Concrete non-degenerate cell whose transposed QR factorization is
`Qrot * 1`: the cell is `Qrotᵀ`. -/
noncomputable def cellRot : Matrix (Fin 3) (Fin 3) ℝ := Qrotᵀ

theorem Qrot_orthogonal : Qrotᵀ * Qrot = 1 := by
  ext i j
  fin_cases i <;> fin_cases j <;>
    simp [Qrot, Matrix.mul_apply, Fin.sum_univ_three, Matrix.transpose_apply,
      Matrix.one_apply, Matrix.vecHead, Matrix.vecTail] <;> norm_num

/-- C2: the claim asserts `normalized_cell = transform · original_cell` as a
matrix product.  The code composes with transposes: it guarantees
`normalized_cellᵀ = transform · original_cellᵀ` instead, and the literal
product equation fails on the concrete rotated cell `cellRot = Qrotᵀ`
(QR factors `Q = Qrot`, `R = 1`): there `normalized_cell = 1` while
`transform · original_cell = Qrotᵀ · Qrotᵀ ≠ 1`.  The final conjunct also
refutes the claim's formula `transform = Q · Sᵀ` (here `Q · Sᵀ = Qrot`,
while the code returns `(Q · Sᵀ)ᵀ = Qrotᵀ`). -/
theorem claim_C2_counterexample :
    Qrotᵀ * Qrot = 1 ∧ upperTriangular (1 : Matrix (Fin 3) (Fin 3) ℝ) ∧
      cellRotᵀ = Qrot * 1 ∧ cellRot.det ≠ 0 ∧
      (transform_cell Qrot 1).1 ≠ (transform_cell Qrot 1).2 * cellRot ∧
      (transform_cell Qrot 1).2 ≠ Qrot := by
  refine ⟨Qrot_orthogonal, ?_, ?_, ?_, ?_, ?_⟩
  · intro i j hij
    exact Matrix.one_apply_ne (ne_of_gt hij)
  · rw [Matrix.mul_one, cellRot, Matrix.transpose_transpose]
  · have h : cellRot.det = Qrot.det := by rw [cellRot, Matrix.det_transpose]
    rw [h, Matrix.det_fin_three]
    simp [Qrot, Matrix.vecHead, Matrix.vecTail]
    norm_num
  · rw [transform_cell_one]
    show (1 : Matrix (Fin 3) (Fin 3) ℝ) ≠ Qrotᵀ * cellRot
    intro h
    have h00 : (1 : Matrix (Fin 3) (Fin 3) ℝ) 0 0 = (Qrotᵀ * cellRot) 0 0 := by rw [← h]
    rw [Matrix.one_apply_eq] at h00
    simp [cellRot, Qrot, Matrix.mul_apply, Fin.sum_univ_three, Matrix.transpose_apply,
      Matrix.vecHead, Matrix.vecTail] at h00
    norm_num at h00
  · rw [transform_cell_one]
    show Qrotᵀ ≠ Qrot
    intro h
    have h01 : Qrotᵀ 0 1 = Qrot 0 1 := by rw [h]
    simp [Qrot, Matrix.transpose_apply, Matrix.vecHead, Matrix.vecTail] at h01
    norm_num at h01

/-- C2 (amended): for every cell with QR factorization `cellᵀ = Q·R`
(`Q` orthogonal), the code's pair satisfies `normalized_cell =
(transform · original_cellᵀ)ᵀ`: equivalently, each row (lattice vector) of
the cell is mapped by `transform` exactly as a position vector is mapped
(`new_row = transform.mulVec old_row`).  Moreover the normalized cell equals
`candidate_cell · S = (S · candidate_cellᵀ)ᵀ` (column scaling, not the
claimed row scaling `S · candidate_cell`) and the transform equals
`(Q · Sᵀ)ᵀ = S · Qᵀ` (not the claimed `Q · Sᵀ`). -/
theorem claim_C2_amended {α : Type} [LinearOrderedField α]
    (cell Q R : Matrix (Fin 3) (Fin 3) α) (hQ : Qᵀ * Q = 1) (hQR : cellᵀ = Q * R) :
    (transform_cell Q R).1 = ((transform_cell Q R).2 * cellᵀ)ᵀ ∧
      (∀ i : Fin 3, (transform_cell Q R).1 i = (transform_cell Q R).2.mulVec (cell i)) ∧
      (transform_cell Q R).1 = Rᵀ * inversionMatrix Rᵀ ∧
      (transform_cell Q R).2 = inversionMatrix Rᵀ * Qᵀ := by
  have key : (transform_cell Q R).2 * cellᵀ = inversionMatrix Rᵀ * R := by
    rw [transform_cell_snd, hQR, Matrix.mul_assoc, ← Matrix.mul_assoc Qᵀ Q R, hQ,
      Matrix.one_mul]
  have h1 : (transform_cell Q R).1 = ((transform_cell Q R).2 * cellᵀ)ᵀ := by
    rw [key, transform_cell_fst]
  refine ⟨h1, ?_, ?_, transform_cell_snd Q R⟩
  · intro i
    funext j
    rw [h1]
    simp [Matrix.mulVec, Matrix.mul_apply, Matrix.transpose_apply, dotProduct]
  · rw [transform_cell_fst, Matrix.transpose_mul, inversionMatrix_transpose]

/-- C2 witness: the amended theorem applied to the identity cell over `ℚ`. -/
theorem claim_C2_witness :
    ((1 : Matrix (Fin 3) (Fin 3) ℚ)ᵀ * 1 = 1) ∧
      ((1 : Matrix (Fin 3) (Fin 3) ℚ)ᵀ = 1 * 1) ∧
      ((transform_cell (1 : Matrix (Fin 3) (Fin 3) ℚ) 1).1 =
          ((transform_cell (1 : Matrix (Fin 3) (Fin 3) ℚ) 1).2 * (1 : Matrix (Fin 3) (Fin 3) ℚ)ᵀ)ᵀ ∧
        (∀ i : Fin 3, (transform_cell (1 : Matrix (Fin 3) (Fin 3) ℚ) 1).1 i =
            (transform_cell (1 : Matrix (Fin 3) (Fin 3) ℚ) 1).2.mulVec
              ((1 : Matrix (Fin 3) (Fin 3) ℚ) i)) ∧
        (transform_cell (1 : Matrix (Fin 3) (Fin 3) ℚ) 1).1 =
            (1 : Matrix (Fin 3) (Fin 3) ℚ)ᵀ * inversionMatrix (1 : Matrix (Fin 3) (Fin 3) ℚ)ᵀ ∧
        (transform_cell (1 : Matrix (Fin 3) (Fin 3) ℚ) 1).2 =
            inversionMatrix (1 : Matrix (Fin 3) (Fin 3) ℚ)ᵀ * (1 : Matrix (Fin 3) (Fin 3) ℚ)ᵀ) :=
  ⟨by simp, by simp, claim_C2_amended 1 1 1 (by simp) (by simp)⟩

/-- C3: for any `Q` and any upper-triangular `R` (the shape `numpy.linalg.qr`
guarantees for every input, non-degenerate or not), the normalized cell
returned by `transform_cell` has exactly zero in all three entries above the
diagonal — the sign correction multiplies by a diagonal matrix and therefore
preserves the exact zeros of the triangular factor. -/
theorem claim_C3 {α : Type} [LinearOrderedField α] (Q R : Matrix (Fin 3) (Fin 3) α)
    (hR : upperTriangular R) :
    ∀ i j : Fin 3, i < j → (transform_cell Q R).1 i j = 0 := by
  intro i j hij
  rw [transform_cell_fst, Matrix.transpose_apply]
  simp only [inversionMatrix, Matrix.diagonal_mul]
  rw [hR j i hij, mul_zero]

/-- C3 witness: the identity matrix is upper triangular and the theorem
yields a zero above-diagonal entry of the normalized identity cell. -/
theorem claim_C3_witness :
    upperTriangular (1 : Matrix (Fin 3) (Fin 3) ℚ) ∧
      (transform_cell (1 : Matrix (Fin 3) (Fin 3) ℚ) 1).1 0 1 = 0 :=
  ⟨by decide, claim_C3 1 1 (by decide) 0 1 (by decide)⟩

/-- C4: for every non-degenerate cell with QR factorization `cellᵀ = Q·R`,
all three diagonal entries of the normalized cell are strictly positive;
moreover the correction matrix is diagonal with entry `-1` exactly at the
indices where the triangular factor's diagonal entry is negative, each index
decided independently. -/
theorem claim_C4 {α : Type} [LinearOrderedField α] (cell Q R : Matrix (Fin 3) (Fin 3) α)
    (hR : upperTriangular R) (_hQ : Qᵀ * Q = 1) (hQR : cellᵀ = Q * R)
    (hdet : cell.det ≠ 0) :
    (∀ i : Fin 3, 0 < (transform_cell Q R).1 i i) ∧
      (∀ i : Fin 3, inversionMatrix Rᵀ i i = if R i i < 0 then -1 else 1) ∧
      (∀ i j : Fin 3, i ≠ j → inversionMatrix Rᵀ i j = 0) := by
  have hbt : R.BlockTriangular id := by
    intro i j hij
    exact hR i j hij
  have hdetR : R.det ≠ 0 := by
    intro h0
    apply hdet
    have h₁ : (cellᵀ).det = cell.det := Matrix.det_transpose cell
    rw [hQR, Matrix.det_mul, h0, mul_zero] at h₁
    exact h₁.symm
  have hdiag : ∀ i : Fin 3, R i i ≠ 0 := by
    rw [Matrix.det_of_upperTriangular hbt] at hdetR
    intro i
    exact Finset.prod_ne_zero_iff.mp hdetR i (Finset.mem_univ i)
  refine ⟨?_, ?_, ?_⟩
  · intro i
    rw [transform_cell_fst, Matrix.transpose_apply]
    simp only [inversionMatrix, Matrix.diagonal_mul, Matrix.transpose_apply]
    by_cases hlt : R i i < 0
    · rw [if_pos hlt, neg_one_mul]
      exact neg_pos.mpr hlt
    · rw [if_neg hlt, one_mul]
      exact lt_of_le_of_ne (not_lt.mp hlt) (Ne.symm (hdiag i))
  · intro i
    simp [inversionMatrix, Matrix.diagonal_apply_eq, Matrix.transpose_apply]
  · intro i j hij
    simp [inversionMatrix, Matrix.diagonal_apply_ne _ hij]

/-- C4 witness: the theorem applied to the identity cell over `ℚ`. -/
theorem claim_C4_witness :
    upperTriangular (1 : Matrix (Fin 3) (Fin 3) ℚ) ∧
      ((1 : Matrix (Fin 3) (Fin 3) ℚ)ᵀ * 1 = 1) ∧
      ((1 : Matrix (Fin 3) (Fin 3) ℚ)ᵀ = 1 * 1) ∧
      ((1 : Matrix (Fin 3) (Fin 3) ℚ).det ≠ 0) ∧
      (∀ i : Fin 3, 0 < (transform_cell (1 : Matrix (Fin 3) (Fin 3) ℚ) 1).1 i i) :=
  ⟨by decide, by simp, by simp, by simp,
    (claim_C4 1 1 1 (by decide) (by simp) (by simp) (by simp)).1⟩

/-- C5: for every orthogonal `Q` (the contract of the QR factor), the
transform returned by `transform_cell` is orthogonal in both orders:
`transform · transformᵀ = 1` and `transformᵀ · transform = 1`.  It is the
product of the diagonal ±1 reflection with `Qᵀ`, hence an isometry. -/
theorem claim_C5 {α : Type} [LinearOrderedField α] (Q R : Matrix (Fin 3) (Fin 3) α)
    (hQ : Qᵀ * Q = 1) :
    (transform_cell Q R).2 * ((transform_cell Q R).2)ᵀ = 1 ∧
      ((transform_cell Q R).2)ᵀ * (transform_cell Q R).2 = 1 := by
  rw [transform_cell_snd, Matrix.transpose_mul, Matrix.transpose_transpose,
    inversionMatrix_transpose]
  constructor
  · rw [Matrix.mul_assoc, ← Matrix.mul_assoc Qᵀ Q _, hQ, Matrix.one_mul,
      inversionMatrix_mul_self]
  · rw [Matrix.mul_assoc, ← Matrix.mul_assoc (inversionMatrix Rᵀ) (inversionMatrix Rᵀ) Qᵀ,
      inversionMatrix_mul_self, Matrix.one_mul, Matrix.mul_eq_one_comm.mp hQ]

/-- C5 witness: the theorem applied to the identity factors over `ℚ`. -/
theorem claim_C5_witness :
    ((1 : Matrix (Fin 3) (Fin 3) ℚ)ᵀ * 1 = 1) ∧
      (transform_cell (1 : Matrix (Fin 3) (Fin 3) ℚ) 1).2 *
          ((transform_cell (1 : Matrix (Fin 3) (Fin 3) ℚ) 1).2)ᵀ = 1 ∧
      ((transform_cell (1 : Matrix (Fin 3) (Fin 3) ℚ) 1).2)ᵀ *
          (transform_cell (1 : Matrix (Fin 3) (Fin 3) ℚ) 1).2 = 1 :=
  ⟨by simp, claim_C5 1 1 (by simp)⟩

/-!
Serializer embedding.  `generate_lammps_structure` (generate_structure.py,
lines 44-127) is embedded over `ℚ` (exact arithmetic in place of IEEE
floats).  The AiiDA/ASE structure object is modelled by the record
`StructureData`; Python dictionaries are modelled by association lists with
insertion order and first-match lookup (`alist_get`), which coincides with a
Python dict whenever keys are unique; `kind_mass_dict` can receive duplicate
keys, so its lookup takes the last binding, as a dict comprehension does.
The call `transform_cell(atoms.cell)` is, as above, represented by passing
the QR factors `Q`,`R` of `cellᵀ` explicitly.  The two exceptions the code
can raise are modelled by `Except`: `ValueError` for an unsupported
`atom_style` and the `KeyError` raised by `kind_mass_dict[kind_name]` when a
site's kind name is absent from the structure's kinds.
-/

/-- One atom of the structure: a kind (species) label and a Cartesian
position.  Mirrors `site.kind_name` / the corresponding row of
`atoms.positions`. -/
structure Site where
  kind_name : String
  position : Fin 3 → ℚ

/-- One species of the structure: a label and a mass.  Mirrors
`kind.name` / `kind.mass`. -/
structure Kind where
  name : String
  mass : ℚ

/-- The parts of an `orm.StructureData` object read by the serializer. -/
structure StructureData where
  sites : List Site
  kinds : List Kind
  cell : Matrix (Fin 3) (Fin 3) ℚ

/-- The two exceptions `generate_lammps_structure` can raise. -/
inductive SerializerError where
  | unsupportedMode
  | inconsistentKind
deriving DecidableEq

/-- First-match association-list lookup: the semantics of `d[k]` /
`k in d` for a Python dict with unique keys, once insertion order is kept. -/
def alist_get {β : Type} : List (String × β) → String → Option β
  | [], _ => none
  | (k, v) :: rest, name => if k = name then some v else alist_get rest name

/-- Embedding of the loop building `kind_name_id_map` (lines 78-81): scan the
sites and give each new kind name the id `len(map) + 1`. -/
def kind_name_id_map (sites : List Site) : List (String × Nat) :=
  sites.foldl
    (fun m site =>
      if (alist_get m site.kind_name).isSome then m
      else m ++ [(site.kind_name, m.length + 1)])
    []

/-- Embedding of `kind_mass_dict = {kind.name: kind.mass for kind in
structure.kinds}` followed by a lookup: a dict comprehension keeps the last
binding of a duplicated key, hence the reversed list. -/
def kind_mass_get (kinds : List Kind) (name : String) : Option ℚ :=
  alist_get ((kinds.map fun k => (k.name, k.mass)).reverse) name

/-- Embedding of `sorted(list(kind_name_id_map.keys()))` (line 107): the keys
in insertion order, sorted lexicographically. -/
def sorted_kind_names (m : List (String × Nat)) : List String :=
  List.insertionSort (· ≤ ·) (m.map Prod.fst)

/-- Embedding of the mass-table loop (lines 107-109).  For each kind name, in
sorted order, the rendered data is `(name, kind id, mass)`;
`kind_mass_dict[kind_name]` raises `KeyError` when the name is missing, which
surfaces here as `SerializerError.inconsistentKind`. -/
def mass_entries (m : List (String × Nat)) (kinds : List Kind) :
    List String → Except SerializerError (List (String × Nat × ℚ))
  | [] => .ok []
  | name :: rest =>
    match kind_mass_get kinds name with
    | some mass =>
      match mass_entries m kinds rest with
      | .ok es => .ok ((name, (alist_get m name).getD 0, mass) :: es)
      | .error e => .error e
    | none => .error .inconsistentKind

/-- The mass table of a structure: entries for the sorted kind names. -/
def mass_table (sites : List Site) (kinds : List Kind) :
    Except SerializerError (List (String × Nat × ℚ)) :=
  mass_entries (kind_name_id_map sites) kinds (sorted_kind_names (kind_name_id_map sites))

/-- Data of one line of the `Atoms` block (lines 116-124): 1-based site
index, kind id, the charge (only in `charge` style) and the transformed
(and possibly rounded) position. -/
structure AtomLine where
  index : Nat
  kind_id : Nat
  charge : Option ℚ
  pos : Fin 3 → ℚ

/-- Embedding of the loop `for site_index, (pos, site) in
enumerate(zip(positions, structure.sites))` (lines 116-124), carrying the
running `site_index`.  The dict access `kind_name_id_map[site.kind_name]`
cannot fail because the map was built from the same site list; the embedding
uses `getD 0` for it.  `charge_dict.get(site.kind_name, 0.0)` is a defaulted
lookup. -/
def atom_table_go (m : List (String × Nat)) (style : String)
    (charge_dict : List (String × ℚ)) :
    Nat → List ((Fin 3 → ℚ) × Site) → List AtomLine
  | _, [] => []
  | i, (pos, site) :: rest =>
    { index := i + 1
      kind_id := (alist_get m site.kind_name).getD 0
      charge :=
        if style = "charge" then some ((alist_get charge_dict site.kind_name).getD 0)
        else none
      pos := pos } :: atom_table_go m style charge_dict (i + 1) rest

/-- The atom table: one line per element of `zip(positions, sites)`, indices
starting at 1. -/
def atom_table (m : List (String × Nat)) (style : String)
    (charge_dict : List (String × ℚ)) (positions : List (Fin 3 → ℚ))
    (sites : List Site) : List AtomLine :=
  atom_table_go m style charge_dict 0 (positions.zip sites)

/-- Round-half-to-even to an integer: the rounding mode of `numpy.round`. -/
def roundHalfEven (q : ℚ) : ℤ :=
  if q - (⌊q⌋ : ℚ) < 1/2 then ⌊q⌋
  else if (1 : ℚ)/2 < q - (⌊q⌋ : ℚ) then ⌊q⌋ + 1
  else if ⌊q⌋ % 2 = 0 then ⌊q⌋ else ⌊q⌋ + 1

/-- `numpy.round(x, n)`: round to `n` decimal places, ties to even.  The
`+ 0.0` of the source only normalizes IEEE `-0.0` and has no rational
counterpart. -/
def roundTo (n : Nat) (q : ℚ) : ℚ := (roundHalfEven (q * 10 ^ n) : ℚ) / 10 ^ n

/-- Python truthiness of the `round_dp` argument as used by
`if round_dp:` (line 94): `None` and `0` are falsy. -/
def truthy : Option Nat → Bool
  | none => false
  | some n => n != 0

/-- Positions after `np.dot(coord_transform, positions.T).T` (line 92): every
site position mapped by the transform as a matrix-vector product. -/
def transformed_positions (T : Matrix (Fin 3) (Fin 3) ℚ) (sites : List Site) :
    List (Fin 3 → ℚ) :=
  sites.map fun site => T.mulVec site.position

/-- The cell actually rendered: rounded componentwise only when `round_dp`
is truthy (lines 94-95). -/
def produced_cell (Q R : Matrix (Fin 3) (Fin 3) ℚ) (round_dp : Option Nat) :
    Matrix (Fin 3) (Fin 3) ℚ :=
  if truthy round_dp then
    Matrix.of fun i j => roundTo (round_dp.getD 0) ((transform_cell Q R).1 i j)
  else (transform_cell Q R).1

/-- The positions actually rendered: rounded componentwise only when
`round_dp` is truthy (lines 94-96). -/
def produced_positions (Q R : Matrix (Fin 3) (Fin 3) ℚ) (round_dp : Option Nat)
    (sites : List Site) : List (Fin 3 → ℚ) :=
  if truthy round_dp then
    (transformed_positions (transform_cell Q R).2 sites).map
      fun p k => roundTo (round_dp.getD 0) (p k)
  else transformed_positions (transform_cell Q R).2 sites

/-- All data appearing in the generated file, in rendering order. -/
structure FileContent where
  docstring : String
  natoms : Nat
  ntypes : Nat
  cellOut : Matrix (Fin 3) (Fin 3) ℚ
  massTable : List (String × Nat × ℚ)
  atom_style : String
  atomTable : List AtomLine

/-- Embedding of `generate_lammps_structure` up to text rendering: the mode
check (lines 70-73), the kind map (78-81), the header counts (87-88), the
cell transform and position transform (91-92), the optional rounding
(94-96), the mass table (106-109) and the atom table (116-124).  An
exception leaves no partial output: the function either returns the complete
file data or an error. -/
def generate_file_content (s : StructureData) (Q R : Matrix (Fin 3) (Fin 3) ℚ)
    (atom_style : String := "atomic") (charge_dict : List (String × ℚ) := [])
    (round_dp : Option Nat := none) (docstring : String := "generated by aiida_lammps") :
    Except SerializerError FileContent :=
  if atom_style ∉ ["atomic", "charge"] then .error .unsupportedMode
  else
    match mass_table s.sites s.kinds with
    | .error e => .error e
    | .ok entries =>
      .ok
        { docstring := docstring
          natoms := s.sites.length
          ntypes := (kind_name_id_map s.sites).length
          cellOut := produced_cell Q R round_dp
          massTable := entries
          atom_style := atom_style
          atomTable :=
            atom_table (kind_name_id_map s.sites) atom_style charge_dict
              (produced_positions Q R round_dp s.sites) s.sites }

/-- Left-pad a string with a character to a given width. -/
def padLeftWith (c : Char) (w : Nat) (s : String) : String :=
  String.mk (List.replicate (w - s.length) c) ++ s

/-- Idealized rendering of the Python format `f"{x:20.10f}"` over `ℚ`: the
magnitude is rounded (ties to even) to ten decimal digits, printed with all
ten digits, and the result is left-padded with spaces to twenty characters.
The digit string of an exactly-representable value matches CPython; the
claims proved below depend only on line structure, never on digits. -/
def fmtFixed (q : ℚ) : String :=
  let sgn : String := if q < 0 then "-" else ""
  let n : Int := roundHalfEven (|q| * 10 ^ 10)
  let body : String :=
    sgn ++ toString (n / 10 ^ 10) ++ "." ++ padLeftWith '0' 10 (toString (n % 10 ^ 10))
  padLeftWith ' ' 20 body

/-- Idealized rendering of the default format `f"{charge}"`. -/
def fmtCharge (q : ℚ) : String := toString q

/-- One line of the mass table: `f"{kind_id} {mass:20.10f} \n"` without the
newline (line 108). -/
def mass_line (e : String × Nat × ℚ) : String :=
  toString e.2.1 ++ " " ++ fmtFixed e.2.2 ++ " "

/-- One line of the atom table (lines 118-124): the `atomic` branch and the
`charge` branch each contribute when the style matches, exactly as the two
consecutive `if` statements of the source do. -/
def atom_line (style : String) (a : AtomLine) : String :=
  (if style = "atomic" then
    toString a.index ++ " " ++ toString a.kind_id ++ " " ++ fmtFixed (a.pos 0) ++ " " ++
      fmtFixed (a.pos 1) ++ " " ++ fmtFixed (a.pos 2)
  else "") ++
  (if style = "charge" then
    toString a.index ++ " " ++ toString a.kind_id ++ " " ++ fmtCharge (a.charge.getD 0) ++
      " " ++ fmtFixed (a.pos 0) ++ " " ++ fmtFixed (a.pos 1) ++ " " ++ fmtFixed (a.pos 2)
  else "")

/-- The generated file as a list of lines, in the exact emission order of the
source (every `+=` of `filestring` appends the shown text followed by `"\n"`;
a bare `"\n"` is an empty line). -/
def file_lines (fc : FileContent) : List String :=
  ["# " ++ fc.docstring, "",
   toString fc.natoms ++ " atoms",
   toString fc.ntypes ++ " atom types", "",
   "0.0 " ++ fmtFixed (fc.cellOut 0 0) ++ " xlo xhi",
   "0.0 " ++ fmtFixed (fc.cellOut 1 1) ++ " ylo yhi",
   "0.0 " ++ fmtFixed (fc.cellOut 2 2) ++ " zlo zhi",
   fmtFixed (fc.cellOut 1 0) ++ " " ++ fmtFixed (fc.cellOut 2 0) ++ " " ++
     fmtFixed (fc.cellOut 2 1) ++ " xy xz yz", "",
   "Masses", ""] ++
  fc.massTable.map mass_line ++
  [""] ++
  ["Atoms", ""] ++
  fc.atomTable.map (atom_line fc.atom_style)

/-- The file text: every line followed by a newline. -/
def render_file_content (fc : FileContent) : String :=
  String.join ((file_lines fc).map (· ++ "\n"))

/-- Embedding of `generate_lammps_structure`: the rendered text together with
`coord_transform`, or the raised error.  On an error no text is produced. -/
def generate_lammps_structure (s : StructureData) (Q R : Matrix (Fin 3) (Fin 3) ℚ)
    (atom_style : String := "atomic") (charge_dict : List (String × ℚ) := [])
    (round_dp : Option Nat := none) (docstring : String := "generated by aiida_lammps") :
    Except SerializerError (String × Matrix (Fin 3) (Fin 3) ℚ) :=
  (generate_file_content s Q R atom_style charge_dict round_dp docstring).map
    fun fc => (render_file_content fc, (transform_cell Q R).2)

/-- Spec-side notion for C8: the list of kind names in first-encounter
order, as described by the specification ("assigned in first-encounter order
while scanning Sites"). -/
def first_encounter_names (names : List String) : List String :=
  names.foldl (fun acc x => if x ∈ acc then acc else acc ++ [x]) []

/-- Pair each element of a list with its 1-based position (offset by `n`). -/
def index_pairs : Nat → List String → List (String × Nat)
  | _, [] => []
  | n, x :: xs => (x, n + 1) :: index_pairs (n + 1) xs

theorem index_pairs_length (l : List String) : ∀ n : Nat, (index_pairs n l).length = l.length := by
  induction l with
  | nil => intro n; rfl
  | cons x xs ih => intro n; simp [index_pairs, ih]

theorem index_pairs_map_fst (l : List String) : ∀ n : Nat, (index_pairs n l).map Prod.fst = l := by
  induction l with
  | nil => intro n; rfl
  | cons x xs ih => intro n; simp [index_pairs, ih]

theorem alist_get_index_pairs_isSome (l : List String) :
    ∀ (n : Nat) (x : String), (alist_get (index_pairs n l) x).isSome ↔ x ∈ l := by
  induction l with
  | nil => intro n x; simp [index_pairs, alist_get]
  | cons a as ih =>
    intro n x
    by_cases hax : a = x
    · subst hax
      simp [index_pairs, alist_get]
    · simp [index_pairs, alist_get, hax, ih, Ne.symm hax]

theorem index_pairs_append (l : List String) :
    ∀ (n : Nat) (x : String),
      index_pairs n (l ++ [x]) = index_pairs n l ++ [(x, n + l.length + 1)] := by
  induction l with
  | nil => intro n x; simp [index_pairs]
  | cons a as ih =>
    intro n x
    show (a, n + 1) :: index_pairs (n + 1) (as ++ [x]) =
      (a, n + 1) :: (index_pairs (n + 1) as ++ [(x, n + (as.length + 1) + 1)])
    rw [ih (n + 1) x]
    have h : n + 1 + as.length + 1 = n + (as.length + 1) + 1 := by omega
    rw [h]

theorem kind_map_fold (sites : List Site) :
    ∀ acc : List String,
      sites.foldl
          (fun m site =>
            if (alist_get m site.kind_name).isSome then m
            else m ++ [(site.kind_name, m.length + 1)])
          (index_pairs 0 acc) =
        index_pairs 0
          (sites.foldl
            (fun a site => if site.kind_name ∈ a then a else a ++ [site.kind_name]) acc) := by
  induction sites with
  | nil => intro acc; rfl
  | cons site rest ih =>
    intro acc
    by_cases hm : site.kind_name ∈ acc
    · have hs : (alist_get (index_pairs 0 acc) site.kind_name).isSome :=
        (alist_get_index_pairs_isSome acc 0 site.kind_name).mpr hm
      simp only [List.foldl_cons, hs, if_true, hm, ih]
    · have hs : ¬(alist_get (index_pairs 0 acc) site.kind_name).isSome := by
        rw [alist_get_index_pairs_isSome acc 0 site.kind_name]
        exact hm
      simp only [List.foldl_cons, hs, if_false, hm, Bool.false_eq_true, index_pairs_length]
      rw [show index_pairs 0 acc ++ [(site.kind_name, acc.length + 1)] =
          index_pairs 0 (acc ++ [site.kind_name]) by
        rw [index_pairs_append acc 0 site.kind_name, Nat.zero_add]]
      exact ih (acc ++ [site.kind_name])

/-- The code's kind map is exactly the spec's first-encounter list of kind
names, each paired with its 1-based position. -/
theorem kind_name_id_map_eq (sites : List Site) :
    kind_name_id_map sites =
      index_pairs 0 (first_encounter_names (sites.map Site.kind_name)) := by
  unfold kind_name_id_map first_encounter_names
  rw [List.foldl_map]
  exact kind_map_fold sites []

theorem mem_first_encounter_aux (names : List String) :
    ∀ (acc : List String) (x : String), x ∈ names ∨ x ∈ acc →
      x ∈ names.foldl (fun a y => if y ∈ a then a else a ++ [y]) acc := by
  induction names with
  | nil =>
    intro acc x hx
    rcases hx with h | h
    · cases h
    · simpa using h
  | cons a as ih =>
    intro acc x hx
    simp only [List.foldl_cons]
    by_cases ha : a ∈ acc
    · rw [if_pos ha]
      apply ih
      rcases hx with h | h
      · rcases List.mem_cons.mp h with rfl | h2
        · exact Or.inr ha
        · exact Or.inl h2
      · exact Or.inr h
    · rw [if_neg ha]
      apply ih
      rcases hx with h | h
      · rcases List.mem_cons.mp h with rfl | h2
        · exact Or.inr (List.mem_append.mpr (Or.inr (List.mem_singleton.mpr rfl)))
        · exact Or.inl h2
      · exact Or.inr (List.mem_append.mpr (Or.inl h))

theorem mem_first_encounter {x : String} {names : List String} (hx : x ∈ names) :
    x ∈ first_encounter_names names :=
  mem_first_encounter_aux names [] x (Or.inl hx)

theorem alist_get_eq_none {β : Type} (l : List (String × β)) (x : String) :
    alist_get l x = none ↔ x ∉ l.map Prod.fst := by
  induction l with
  | nil => simp [alist_get]
  | cons p rest ih =>
    by_cases hpx : p.1 = x
    · simp [alist_get, hpx]
    · simp [alist_get, hpx, ih, Ne.symm hpx]

/-- A kind name resolves to no mass exactly when it is absent from the
structure's kinds. -/
theorem kind_mass_get_eq_none (kinds : List Kind) (x : String) :
    kind_mass_get kinds x = none ↔ x ∉ kinds.map Kind.name := by
  rw [kind_mass_get, alist_get_eq_none]
  rw [List.map_reverse, List.map_map]
  rw [List.mem_reverse]
  rfl

theorem mass_entries_error_eq {m : List (String × Nat)} {kinds : List Kind}
    {names : List String} {e : SerializerError}
    (h : mass_entries m kinds names = .error e) : e = .inconsistentKind := by
  induction names with
  | nil => exact absurd h (by simp [mass_entries])
  | cons a rest ih =>
    rw [mass_entries] at h
    cases hget : kind_mass_get kinds a with
    | none =>
      rw [hget] at h
      cases h
      rfl
    | some mass =>
      rw [hget] at h
      cases hrec : mass_entries m kinds rest with
      | ok es => rw [hrec] at h; cases h
      | error e2 =>
        rw [hrec] at h
        cases h
        exact ih hrec

theorem mass_entries_error_of_missing {m : List (String × Nat)} {kinds : List Kind}
    {names : List String} {x : String} (hx : x ∈ names)
    (hnone : kind_mass_get kinds x = none) :
    mass_entries m kinds names = .error .inconsistentKind := by
  induction names with
  | nil => cases hx
  | cons a rest ih =>
    rw [mass_entries]
    cases hget : kind_mass_get kinds a with
    | none => rfl
    | some mass =>
      have hxr : x ∈ rest := by
        rcases List.mem_cons.mp hx with rfl | h2
        · rw [hget] at hnone; cases hnone
        · exact h2
      rw [ih hxr]

theorem mass_entries_ok {m : List (String × Nat)} {kinds : List Kind} :
    ∀ {names : List String} {es : List (String × Nat × ℚ)},
      mass_entries m kinds names = .ok es →
        es.map (fun e => e.1) = names ∧
          ∀ e ∈ es, e.2.1 = (alist_get m e.1).getD 0 ∧ kind_mass_get kinds e.1 = some e.2.2 := by
  intro names
  induction names with
  | nil =>
    intro es h
    rw [mass_entries] at h
    cases h
    exact ⟨rfl, by intro e he; cases he⟩
  | cons a rest ih =>
    intro es h
    rw [mass_entries] at h
    cases hget : kind_mass_get kinds a with
    | none => rw [hget] at h; cases h
    | some mass =>
      rw [hget] at h
      cases hrec : mass_entries m kinds rest with
      | error e2 => rw [hrec] at h; cases h
      | ok es' =>
        rw [hrec] at h
        cases h
        obtain ⟨hmap, hall⟩ := ih hrec
        refine ⟨by simp [hmap], ?_⟩
        intro e he
        rcases List.mem_cons.mp he with rfl | h2
        · exact ⟨rfl, hget⟩
        · exact hall e h2

theorem atom_table_go_length (m : List (String × Nat)) (style : String)
    (cd : List (String × ℚ)) :
    ∀ (l : List ((Fin 3 → ℚ) × Site)) (n : Nat),
      (atom_table_go m style cd n l).length = l.length := by
  intro l
  induction l with
  | nil => intro n; rfl
  | cons p rest ih => intro n; simp [atom_table_go, ih]

theorem atom_table_go_get (m : List (String × Nat)) (style : String)
    (cd : List (String × ℚ)) :
    ∀ (l : List ((Fin 3 → ℚ) × Site)) (n i : Nat)
      (h : i < (atom_table_go m style cd n l).length) (h2 : i < l.length),
      (atom_table_go m style cd n l).get ⟨i, h⟩ =
        { index := n + i + 1
          kind_id := (alist_get m (l.get ⟨i, h2⟩).2.kind_name).getD 0
          charge :=
            if style = "charge" then
              some ((alist_get cd (l.get ⟨i, h2⟩).2.kind_name).getD 0)
            else none
          pos := (l.get ⟨i, h2⟩).1 } := by
  intro l
  induction l with
  | nil => intro n i h h2; cases h2
  | cons p rest ih =>
    intro n i h h2
    match i with
    | 0 =>
      show ({ index := n + 1, kind_id := _, charge := _, pos := _ } : AtomLine) = _
      rfl
    | Nat.succ j =>
      have hj : j < (atom_table_go m style cd (n + 1) rest).length := by
        rw [atom_table_go_length m style cd rest (n + 1)]
        exact Nat.lt_of_succ_lt_succ h2
      have hj2 : j < rest.length := Nat.lt_of_succ_lt_succ h2
      have step := ih (n + 1) j hj hj2
      have harith : n + 1 + j + 1 = n + (j + 1) + 1 := by omega
      rw [harith] at step
      exact step

theorem produced_positions_length (Q R : Matrix (Fin 3) (Fin 3) ℚ) (rd : Option Nat)
    (sites : List Site) : (produced_positions Q R rd sites).length = sites.length := by
  unfold produced_positions transformed_positions
  split <;> simp

/-- Inversion of a successful serialization: every field of the produced
`FileContent` is the corresponding intermediate value of the source. -/
theorem generate_file_content_ok {s : StructureData} {Q R : Matrix (Fin 3) (Fin 3) ℚ}
    {style : String} {cd : List (String × ℚ)} {rd : Option Nat} {doc : String}
    {fc : FileContent}
    (h : generate_file_content s Q R style cd rd doc = .ok fc) :
    fc.docstring = doc ∧ fc.natoms = s.sites.length ∧
      fc.ntypes = (kind_name_id_map s.sites).length ∧
      fc.cellOut = produced_cell Q R rd ∧
      mass_table s.sites s.kinds = .ok fc.massTable ∧
      fc.atom_style = style ∧
      fc.atomTable =
        atom_table (kind_name_id_map s.sites) style cd
          (produced_positions Q R rd s.sites) s.sites := by
  unfold generate_file_content at h
  split at h
  · cases h
  · split at h
    · cases h
    · next es heq =>
      cases h
      exact ⟨rfl, rfl, rfl, rfl, heq, rfl, rfl⟩

/-- Concrete structure for the C1 counterexample: one site of kind `A`,
whose kind is declared, so serialization succeeds in a supported mode. -/
def Sc1 : StructureData := ⟨[⟨"A", fun _ => 0⟩], [⟨"A", 1⟩], 1⟩

/-- C1: the claim names the supported mode pair as `atomic`/`charged`, but
the code accepts `["atomic", "charge"]` (line 70).  The mode `"charged"`,
which the claim says is accepted, raises the unsupported-mode error on a
structure that serializes fine in mode `"atomic"`. -/
theorem claim_C1_counterexample :
    generate_lammps_structure Sc1 1 1 "charged" [] none "d" =
        .error .unsupportedMode ∧
      "charged" ∈ (["atomic", "charged"] : List String) ∧
      (∃ text : String, ∃ T : Matrix (Fin 3) (Fin 3) ℚ,
        generate_lammps_structure Sc1 1 1 "atomic" [] none "d" = .ok (text, T)) :=
  ⟨rfl, by decide, ⟨_, _, rfl⟩⟩

/-- C1 (amended): for every structure and arguments, the serializer raises
the unsupported-mode error exactly when the mode is not one of the two
supported values `"atomic"` and `"charge"` (not `"charged"`); on an error no
text is produced (the `Except` carries no string). -/
theorem claim_C1_amended (s : StructureData) (Q R : Matrix (Fin 3) (Fin 3) ℚ)
    (style : String) (cd : List (String × ℚ)) (rd : Option Nat) (doc : String) :
    generate_lammps_structure s Q R style cd rd doc = .error .unsupportedMode ↔
      style ∉ (["atomic", "charge"] : List String) := by
  unfold generate_lammps_structure generate_file_content
  by_cases hm : style ∈ (["atomic", "charge"] : List String)
  · rw [if_neg (not_not_intro hm)]
    cases hmt : mass_table s.sites s.kinds with
    | error e =>
      have he : e = .inconsistentKind := mass_entries_error_eq hmt
      subst he
      simp [hmt, Except.map, hm]
    | ok entries => simp [hmt, Except.map, hm]
  · rw [if_pos hm]
    simp [Except.map, hm]

/-- C7: a structure containing a site whose kind name is absent from the
declared kinds makes the serializer fail (in any supported mode) with the
inconsistent-kind error — the `KeyError` of `kind_mass_dict[kind_name]` —
and return no text: the `Except` result carries the error alone. -/
theorem claim_C7 (s : StructureData) (Q R : Matrix (Fin 3) (Fin 3) ℚ)
    (style : String) (cd : List (String × ℚ)) (rd : Option Nat) (doc : String)
    (hstyle : style ∈ (["atomic", "charge"] : List String))
    (hbad : ∃ site ∈ s.sites, site.kind_name ∉ s.kinds.map Kind.name) :
    generate_lammps_structure s Q R style cd rd doc = .error .inconsistentKind := by
  obtain ⟨site, hmem, habs⟩ := hbad
  have hnone : kind_mass_get s.kinds site.kind_name = none :=
    (kind_mass_get_eq_none s.kinds site.kind_name).mpr habs
  have h1 : site.kind_name ∈ s.sites.map Site.kind_name :=
    List.mem_map_of_mem Site.kind_name hmem
  have h2 : site.kind_name ∈ first_encounter_names (s.sites.map Site.kind_name) :=
    mem_first_encounter h1
  have h3 : (kind_name_id_map s.sites).map Prod.fst =
      first_encounter_names (s.sites.map Site.kind_name) := by
    rw [kind_name_id_map_eq]
    exact index_pairs_map_fst _ 0
  have h4 : site.kind_name ∈ (kind_name_id_map s.sites).map Prod.fst := by
    rw [h3]
    exact h2
  have h5 : site.kind_name ∈ sorted_kind_names (kind_name_id_map s.sites) :=
    (List.perm_insertionSort (· ≤ ·) _).mem_iff.mpr h4
  have herr : mass_table s.sites s.kinds = .error .inconsistentKind :=
    mass_entries_error_of_missing h5 hnone
  unfold generate_lammps_structure generate_file_content
  rw [if_neg (not_not_intro hstyle)]
  simp [herr, Except.map]

/-- Concrete structure for the C7 witness: one site of kind `A` while the
kind list is empty. -/
def Sw7 : StructureData := ⟨[⟨"A", fun _ => 0⟩], [], 1⟩

/-- C7 witness: the theorem applied to `Sw7` in mode `"atomic"`. -/
theorem claim_C7_witness :
    ("atomic" ∈ (["atomic", "charge"] : List String) ∧
        ∃ site ∈ Sw7.sites, site.kind_name ∉ Sw7.kinds.map Kind.name) ∧
      generate_lammps_structure Sw7 1 1 "atomic" [] none "d" =
        .error .inconsistentKind :=
  ⟨⟨by decide, ⟨⟨"A", fun _ => 0⟩, by constructor, by decide⟩⟩,
    claim_C7 Sw7 1 1 "atomic" [] none "d" (by decide)
      ⟨⟨"A", fun _ => 0⟩, by constructor, by decide⟩⟩

/-- C8: on every successful serialization, the kind map assigns 1-based ids
in first-encounter order over the sites (`index_pairs` over the spec-side
`first_encounter_names`, not alphabetical order), the atom table has exactly
one line per site in input order, the `i`-th line carries the 1-based index
`i + 1` and the kind id looked up for the `i`-th site's kind name, and
re-serializing the same structure yields the identical result (the final
conjunct; the embedding is a pure function of its arguments, as is the
source, which holds no state). -/
theorem claim_C8 (s : StructureData) (Q R : Matrix (Fin 3) (Fin 3) ℚ)
    (style : String) (cd : List (String × ℚ)) (rd : Option Nat) (doc : String)
    (fc : FileContent)
    (hok : generate_file_content s Q R style cd rd doc = .ok fc) :
    kind_name_id_map s.sites =
        index_pairs 0 (first_encounter_names (s.sites.map Site.kind_name)) ∧
      fc.atomTable.length = s.sites.length ∧
      (∀ (i : Nat) (hi : i < fc.atomTable.length) (hs : i < s.sites.length),
        (fc.atomTable.get ⟨i, hi⟩).index = i + 1 ∧
        (fc.atomTable.get ⟨i, hi⟩).kind_id =
          (alist_get (kind_name_id_map s.sites) ((s.sites.get ⟨i, hs⟩).kind_name)).getD 0) ∧
      ∀ fc' : FileContent,
        generate_file_content s Q R style cd rd doc = .ok fc' → fc' = fc := by
  obtain ⟨-, -, -, -, -, -, hat⟩ := generate_file_content_ok hok
  have hplen : (produced_positions Q R rd s.sites).length = s.sites.length :=
    produced_positions_length Q R rd s.sites
  have hzlen : ((produced_positions Q R rd s.sites).zip s.sites).length = s.sites.length := by
    rw [List.length_zip, hplen, Nat.min_self]
  have hlen : fc.atomTable.length = s.sites.length := by
    rw [hat]
    unfold atom_table
    rw [atom_table_go_length, hzlen]
  refine ⟨kind_name_id_map_eq s.sites, hlen, ?_, ?_⟩
  · intro i hi hs
    have hi' : i < (atom_table (kind_name_id_map s.sites) style cd
        (produced_positions Q R rd s.sites) s.sites).length := by
      rw [← hat]
      exact hi
    have hz : i < ((produced_positions Q R rd s.sites).zip s.sites).length := by
      rw [hzlen]
      exact hs
    have hget := atom_table_go_get (kind_name_id_map s.sites) style cd
      ((produced_positions Q R rd s.sites).zip s.sites) 0 i hi' hz
    have hzip : (((produced_positions Q R rd s.sites).zip s.sites).get ⟨i, hz⟩).2 =
        s.sites.get ⟨i, hs⟩ := by
      simp [List.getElem_zip]
    have hcast : ∀ (h1 : i < fc.atomTable.length)
        (h2 : i < (atom_table (kind_name_id_map s.sites) style cd
          (produced_positions Q R rd s.sites) s.sites).length),
        fc.atomTable.get ⟨i, h1⟩ =
          (atom_table (kind_name_id_map s.sites) style cd
            (produced_positions Q R rd s.sites) s.sites).get ⟨i, h2⟩ := by
      intro h1 h2
      congr 1
      exact (Fin.heq_ext_iff (by rw [hat])).mpr rfl
    rw [hcast hi hi']
    unfold atom_table
    rw [hget, hzip]
    exact ⟨by rw [Nat.zero_add], rfl⟩
  · intro fc' h'
    rw [hok] at h'
    exact (Except.ok.inj h').symm

/-- Concrete structure for the C8 witness: two sites sharing the kind `A`. -/
def Sw8 : StructureData :=
  ⟨[⟨"A", fun _ => 0⟩, ⟨"A", fun _ => 0⟩], [⟨"A", 1⟩], 1⟩

/-- The file content produced for `Sw8`. -/
def FCw8 : FileContent :=
  (generate_file_content Sw8 1 1 "atomic" [] none "d").toOption.getD
    ⟨"", 0, 0, 0, [], "", []⟩

/-- C8 witness: the theorem applied to the concrete structure `Sw8`. -/
theorem claim_C8_witness :
    generate_file_content Sw8 1 1 "atomic" [] none "d" = .ok FCw8 ∧
      (kind_name_id_map Sw8.sites =
          index_pairs 0 (first_encounter_names (Sw8.sites.map Site.kind_name)) ∧
        FCw8.atomTable.length = Sw8.sites.length ∧
        (∀ (i : Nat) (hi : i < FCw8.atomTable.length) (hs : i < Sw8.sites.length),
          (FCw8.atomTable.get ⟨i, hi⟩).index = i + 1 ∧
          (FCw8.atomTable.get ⟨i, hi⟩).kind_id =
            (alist_get (kind_name_id_map Sw8.sites)
              ((Sw8.sites.get ⟨i, hs⟩).kind_name)).getD 0) ∧
        ∀ fc' : FileContent,
          generate_file_content Sw8 1 1 "atomic" [] none "d" = .ok fc' → fc' = FCw8) :=
  ⟨rfl, claim_C8 Sw8 1 1 "atomic" [] none "d" FCw8 rfl⟩

/-- Concrete structure for the C9 counterexample: two declared kinds but
only kind `A` has a site. -/
def Sc9 : StructureData :=
  ⟨[⟨"A", fun _ => 0⟩], [⟨"A", 1⟩, ⟨"B", 2⟩], 1⟩

/-- C9: the claim requires "one line per Kind", but the mass table iterates
over the keys of the site-derived kind map (line 107), so a declared kind
with no site gets no line: `Sc9` has two kinds yet its mass table has a
single entry. -/
theorem claim_C9_counterexample :
    (generate_file_content Sc9 1 1 "atomic" [] none "d").map
        (fun fc => fc.massTable.length) = .ok 1 ∧
      Sc9.kinds.length = 2 ∧ (1 : Nat) ≠ 2 :=
  ⟨rfl, rfl, by decide⟩

/-- C9 (amended): on every successful serialization the mass-table entries
are sorted lexicographically by species label — regardless of the
first-encounter order used for the kind ids — with one line per entry of the
kind map (one per distinct species among the sites; declared kinds without
sites get no line), each carrying that species' kind id and mass. -/
theorem claim_C9_amended (s : StructureData) (Q R : Matrix (Fin 3) (Fin 3) ℚ)
    (style : String) (cd : List (String × ℚ)) (rd : Option Nat) (doc : String)
    (fc : FileContent)
    (hok : generate_file_content s Q R style cd rd doc = .ok fc) :
    List.Sorted (· ≤ ·) (fc.massTable.map fun e => e.1) ∧
      fc.massTable.map (fun e => e.1) = sorted_kind_names (kind_name_id_map s.sites) ∧
      fc.massTable.length = (kind_name_id_map s.sites).length ∧
      ∀ e ∈ fc.massTable,
        e.2.1 = (alist_get (kind_name_id_map s.sites) e.1).getD 0 ∧
        kind_mass_get s.kinds e.1 = some e.2.2 := by
  obtain ⟨-, -, -, -, hmt, -, -⟩ := generate_file_content_ok hok
  rw [mass_table] at hmt
  obtain ⟨hmap, hall⟩ := mass_entries_ok hmt
  have hsorted : List.Sorted (· ≤ ·) (fc.massTable.map fun e => e.1) := by
    rw [hmap]
    exact List.sorted_insertionSort (· ≤ ·) _
  have hlen : fc.massTable.length = (kind_name_id_map s.sites).length := by
    have h1 := congrArg List.length hmap
    rw [List.length_map] at h1
    rw [h1]
    show (List.insertionSort (· ≤ ·) ((kind_name_id_map s.sites).map Prod.fst)).length = _
    rw [(List.perm_insertionSort (· ≤ ·) _).length_eq, List.length_map]
  exact ⟨hsorted, hmap, hlen, hall⟩

/-- Concrete structure for the C9 witness. -/
def Sw9 : StructureData := ⟨[⟨"A", fun _ => 0⟩], [⟨"A", 7⟩], 1⟩

/-- The file content produced for `Sw9`. -/
def FCw9 : FileContent :=
  (generate_file_content Sw9 1 1 "atomic" [] none "d").toOption.getD
    ⟨"", 0, 0, 0, [], "", []⟩

/-- C9 witness: the amended theorem applied to the concrete structure
`Sw9`. -/
theorem claim_C9_witness :
    generate_file_content Sw9 1 1 "atomic" [] none "d" = .ok FCw9 ∧
      (List.Sorted (· ≤ ·) (FCw9.massTable.map fun e => e.1) ∧
        FCw9.massTable.map (fun e => e.1) =
          sorted_kind_names (kind_name_id_map Sw9.sites) ∧
        FCw9.massTable.length = (kind_name_id_map Sw9.sites).length ∧
        ∀ e ∈ FCw9.massTable,
          e.2.1 = (alist_get (kind_name_id_map Sw9.sites) e.1).getD 0 ∧
          kind_mass_get Sw9.kinds e.1 = some e.2.2) :=
  ⟨rfl, claim_C9_amended Sw9 1 1 "atomic" [] none "d" FCw9 rfl⟩

/-- C10: on every successful serialization the atom count and atom-type
count rendered in the header equal the number of sites and the number of
entries of the kind map, and the third and fourth lines of the generated
text carry exactly those counts. -/
theorem claim_C10 (s : StructureData) (Q R : Matrix (Fin 3) (Fin 3) ℚ)
    (style : String) (cd : List (String × ℚ)) (rd : Option Nat) (doc : String)
    (fc : FileContent)
    (hok : generate_file_content s Q R style cd rd doc = .ok fc) :
    fc.natoms = s.sites.length ∧
      fc.ntypes = (kind_name_id_map s.sites).length ∧
      (file_lines fc)[2]? = some (toString s.sites.length ++ " atoms") ∧
      (file_lines fc)[3]? =
        some (toString (kind_name_id_map s.sites).length ++ " atom types") := by
  obtain ⟨-, hna, hnt, -, -, -, -⟩ := generate_file_content_ok hok
  refine ⟨hna, hnt, ?_, ?_⟩
  · simp [file_lines, hna]
  · simp [file_lines, hnt]

/-- Concrete structure for the C10 witness: three sites of a single kind. -/
def Sw10 : StructureData :=
  ⟨[⟨"A", fun _ => 0⟩, ⟨"A", fun _ => 0⟩, ⟨"A", fun _ => 0⟩], [⟨"A", 1⟩], 1⟩

/-- The file content produced for `Sw10`. -/
def FCw10 : FileContent :=
  (generate_file_content Sw10 1 1 "atomic" [] none "d").toOption.getD
    ⟨"", 0, 0, 0, [], "", []⟩

/-- C10 witness: the theorem applied to the concrete structure `Sw10`. -/
theorem claim_C10_witness :
    generate_file_content Sw10 1 1 "atomic" [] none "d" = .ok FCw10 ∧
      (FCw10.natoms = Sw10.sites.length ∧
        FCw10.ntypes = (kind_name_id_map Sw10.sites).length ∧
        (file_lines FCw10)[2]? = some (toString Sw10.sites.length ++ " atoms") ∧
        (file_lines FCw10)[3]? =
          some (toString (kind_name_id_map Sw10.sites).length ++ " atom types")) :=
  ⟨rfl, claim_C10 Sw10 1 1 "atomic" [] none "d" FCw10 rfl⟩

/-- Concrete structure for the C6 counterexample: one site at `(3/2, 3/2,
3/2)` in the identity cell, serialized with rounding precision `0`. -/
def Sc6 : StructureData := ⟨[⟨"A", fun _ => 3/2⟩], [⟨"A", 1⟩], 1⟩

/-- C6: the claim includes precision `0`, but the source guards the rounding
with `if round_dp:` (line 94) and Python treats `0` as falsy, so with
`round_dp = 0` nothing is rounded: the serialized position component stays
`3/2` although rounding to zero decimal places would give `2`. -/
theorem claim_C6_counterexample :
    (generate_file_content Sc6 1 1 "atomic" [] (some 0) "d").map
        (fun fc => fc.atomTable.map fun a => a.pos 0) = .ok [3/2] ∧
      roundTo 0 ((3 : ℚ)/2) = 2 ∧ ((3 : ℚ)/2) ≠ 2 := by
  refine ⟨?_, ?_, by norm_num⟩
  · have hmt : mass_table Sc6.sites Sc6.kinds = .ok [("A", 1, 1)] := rfl
    unfold generate_file_content
    rw [if_neg (by decide : ¬("atomic" ∉ (["atomic", "charge"] : List String)))]
    rw [hmt]
    simp [Except.map, atom_table, atom_table_go, produced_positions, truthy,
      transformed_positions, Sc6, transform_cell_one, Matrix.transpose_one,
      Matrix.one_mulVec]
  · have h1 : ((3 : ℚ)/2 * 10 ^ (0 : Nat)) = 3/2 := by norm_num
    rw [roundTo, roundHalfEven, h1]
    norm_num

/-- C6 (amended): for every rounding precision that is set and nonzero, the
serialized cell and the serialized positions are both obtained by applying
the same componentwise rounding `roundTo n` — the cell to the normalized
cell, the positions to the transformed positions — before any formatting.
Precision `0` (like `None`) is falsy in the source's `if round_dp:` guard
and disables rounding entirely. -/
theorem claim_C6_amended (s : StructureData) (Q R : Matrix (Fin 3) (Fin 3) ℚ)
    (style : String) (cd : List (String × ℚ)) (doc : String) (n : Nat)
    (fc : FileContent) (hn : n ≠ 0)
    (hok : generate_file_content s Q R style cd (some n) doc = .ok fc) :
    fc.cellOut = Matrix.of (fun i j => roundTo n ((transform_cell Q R).1 i j)) ∧
      fc.atomTable =
        atom_table (kind_name_id_map s.sites) style cd
          ((transformed_positions (transform_cell Q R).2 s.sites).map
            fun p k => roundTo n (p k))
          s.sites := by
  obtain ⟨-, -, -, hcell, -, -, hat⟩ := generate_file_content_ok hok
  have ht : truthy (some n) = true := by
    show (n != 0) = true
    rw [bne_iff_ne]
    exact hn
  constructor
  · rw [hcell]
    simp [produced_cell, ht]
  · rw [hat]
    simp [produced_positions, ht]

/-- Concrete structure for the C6 witness. -/
def Sw6 : StructureData := ⟨[⟨"A", fun _ => 1⟩], [⟨"A", 2⟩], 1⟩

/-- The file content produced for `Sw6` with rounding precision 1. -/
def FCw6 : FileContent :=
  (generate_file_content Sw6 1 1 "atomic" [] (some 1) "d").toOption.getD
    ⟨"", 0, 0, 0, [], "", []⟩

/-- C6 witness: the amended theorem applied to `Sw6` at precision 1. -/
theorem claim_C6_witness :
    ((1 : Nat) ≠ 0 ∧
        generate_file_content Sw6 1 1 "atomic" [] (some 1) "d" = .ok FCw6) ∧
      (FCw6.cellOut = Matrix.of (fun i j => roundTo 1 ((transform_cell 1 1).1 i j)) ∧
        FCw6.atomTable =
          atom_table (kind_name_id_map Sw6.sites) "atomic" []
            ((transformed_positions (transform_cell 1 1).2 Sw6.sites).map
              fun p k => roundTo 1 (p k))
            Sw6.sites) :=
  ⟨⟨by decide, rfl⟩, claim_C6_amended Sw6 1 1 "atomic" [] "d" 1 FCw6 (by decide) rfl⟩
